import Mathlib

/-!
Verification development for the `secret-picture` repository.

The on-chain component is `src/contracts/EncryptedGallery.sol`; the
client-side cipher is `src/app/src/utils/crypto.ts` (AES-256-GCM via the
Web Crypto API, nonce length 12, tag length 16); the key-handling flow is in
`src/app/src/components/GalleryApp.tsx`.

Shallow embedding conventions:
* Ethereum addresses and 256-bit values are `Nat` (address 0 is the zero
  address, which Solidity mappings use as the "missing" marker).
* Solidity mappings are total functions with default values, matching EVM
  storage semantics.
* A reverting call is an `Except` error; the EVM rolls back all state on
  revert, which `exec` models by keeping the pre-call state.
* The external payout `image.creator.call{value: msg.value}("")` can be
  rejected by the recipient; its success is the explicit `payoutOk` input.
* The FHE access-control list attached to an item's `euint256` key handle
  (written by `FHE.allow` / `FHE.allowThis`) is the `keyAllowed` /
  `contractAllowed` state.
-/

namespace SecretPicture

/-- `ACCESS_PRICE = 0.001 ether`, in wei (`EncryptedGallery.sol` line 15). -/
def ACCESS_PRICE : Nat := 1000000000000000

/-- The stored `EncryptedImage` struct. `creator = 0` is the mapping default
and marks a missing item. `encryptedKey` is the `euint256` handle's value. -/
structure EncryptedImage where
  creator : Nat
  ipfsHash : List Char
  encryptedKey : Nat
  createdAt : Nat
  deriving Repr, DecidableEq

/-- The all-zero mapping default for `_images[id]`. -/
def emptyImage : EncryptedImage :=
  { creator := 0, ipfsHash := [], encryptedKey := 0, createdAt := 0 }

/-- Contract storage plus the FHE ACL of each item's key handle.
`hasPurchasedMap` is `_hasPurchased`; `keyAllowed i a` records
`FHE.allow(_images[i].encryptedKey, a)`; `contractAllowed i` records
`FHE.allowThis` on that handle. -/
structure GalleryState where
  nextImageId : Nat
  images : Nat → EncryptedImage
  hasPurchasedMap : Nat → Nat → Bool
  keyAllowed : Nat → Nat → Bool
  contractAllowed : Nat → Bool

/-- Freshly deployed contract: all storage at defaults. -/
def initState : GalleryState :=
  { nextImageId := 0
    images := fun _ => emptyImage
    hasPurchasedMap := fun _ _ => false
    keyAllowed := fun _ _ => false
    contractAllowed := fun _ => false }

/-- Revert reasons of `EncryptedGallery.sol`, tagged with the spec's error
taxonomy: `invalidHash` = InvalidInputError ("Invalid hash"), `notFound` =
NotFoundError ("Image missing"), `creatorRestricted` = SelfPurchaseError
("Creator restricted"), `alreadyPurchased` = AlreadyPurchasedError
("Already purchased"), `incorrectPrice` = PriceMismatchError
("Incorrect price"), `payoutFailed` ("Payout failed"), `invalidAccount` =
InvalidInputError ("Invalid account"), `notCreator` = NotAuthorizedError
("Not creator"). -/
inductive GError where
  | invalidHash
  | notFound
  | creatorRestricted
  | alreadyPurchased
  | incorrectPrice
  | payoutFailed
  | invalidAccount
  | notCreator
  deriving Repr, DecidableEq

/-- The value transfer a successful `purchaseImage` performs:
`image.creator.call{value: msg.value}("")`. -/
structure Transfer where
  recipient : Nat
  amount : Nat
  deriving Repr, DecidableEq

/-- `listEncryptedImage(ipfsHash, encryptedKey, inputProof)` (lines 25-46).
`sender` is `msg.sender`, `storedKey` the value checked in by
`FHE.fromExternal`, `nowTime` is `block.timestamp`. Requires a non-empty
hash, assigns `imageId = ++_nextImageId`, stores the struct, then
`FHE.allowThis(storedKey)` and `FHE.allow(storedKey, msg.sender)`.
Returns the new state and the fresh `imageId`. -/
def listEncryptedImage (s : GalleryState) (sender : Nat) (ipfsHash : List Char)
    (storedKey : Nat) (nowTime : Nat) : Except GError (GalleryState × Nat) :=
  if ipfsHash.length = 0 then
    .error .invalidHash
  else
    let imageId := s.nextImageId + 1
    let image : EncryptedImage :=
      { creator := sender, ipfsHash := ipfsHash, encryptedKey := storedKey
        createdAt := nowTime }
    .ok
      ({ nextImageId := imageId
         images := fun i => if i = imageId then image else s.images i
         hasPurchasedMap := s.hasPurchasedMap
         keyAllowed := fun i a =>
           if i = imageId ∧ a = sender then true else s.keyAllowed i a
         contractAllowed := fun i =>
           if i = imageId then true else s.contractAllowed i },
       imageId)

/-- `purchaseImage(imageId)` (lines 48-64). `sender` is `msg.sender`,
`msgValue` is `msg.value`, `payoutOk` is whether the low-level call to the
creator succeeds. Check order is exactly the source's: existence, self-
purchase, double-purchase, price; then the purchase flag is set, the full
`msg.value` is forwarded to the creator (reverting everything if that call
fails), and the buyer is added to the key's FHE ACL. -/
def purchaseImage (s : GalleryState) (sender : Nat) (imageId : Nat)
    (msgValue : Nat) (payoutOk : Bool) :
    Except GError (GalleryState × Transfer) :=
  if (s.images imageId).creator = 0 then .error .notFound
  else if sender = (s.images imageId).creator then .error .creatorRestricted
  else if s.hasPurchasedMap imageId sender then .error .alreadyPurchased
  else if ¬ msgValue = ACCESS_PRICE then .error .incorrectPrice
  else if ¬ payoutOk then .error .payoutFailed
  else
    .ok
      ({ s with
         hasPurchasedMap := fun i a =>
           if i = imageId ∧ a = sender then true else s.hasPurchasedMap i a
         keyAllowed := fun i a =>
           if i = imageId ∧ a = sender then true else s.keyAllowed i a },
       { recipient := (s.images imageId).creator, amount := msgValue })

/-- `grantAccess(imageId, account)` (lines 66-75). Requires a non-zero
account, an existing image, and `msg.sender == creator`; its only state
effect is `FHE.allow(image.encryptedKey, account)` - it does not touch
`_hasPurchased`. -/
def grantAccess (s : GalleryState) (sender : Nat) (imageId : Nat)
    (account : Nat) : Except GError GalleryState :=
  if account = 0 then .error .invalidAccount
  else if (s.images imageId).creator = 0 then .error .notFound
  else if ¬ (s.images imageId).creator = sender then .error .notCreator
  else
    .ok
      { s with
        keyAllowed := fun i a =>
          if i = imageId ∧ a = account then true else s.keyAllowed i a }

/-- `getImage(imageId)` (lines 77-86): the returned view
`(creator, ipfsHash, price, createdAt, encryptedKey)`, or "Image missing". -/
def getImage (s : GalleryState) (imageId : Nat) :
    Except GError (Nat × List Char × Nat × Nat × Nat) :=
  if (s.images imageId).creator = 0 then .error .notFound
  else .ok ((s.images imageId).creator, (s.images imageId).ipfsHash,
            ACCESS_PRICE, (s.images imageId).createdAt,
            (s.images imageId).encryptedKey)

/-- `getTotalImages()` (lines 88-90). -/
def getTotalImages (s : GalleryState) : Nat :=
  s.nextImageId

/-- `hasPurchased(imageId, account)` (lines 92-96): reverts "Image missing"
on a missing item, else `account == image.creator || _hasPurchased[imageId][account]`. -/
def hasPurchased (s : GalleryState) (imageId : Nat) (account : Nat) :
    Except GError Bool :=
  if (s.images imageId).creator = 0 then .error .notFound
  else .ok (account = (s.images imageId).creator ∨ s.hasPurchasedMap imageId account)

/-- One external call to the contract's mutating entry points. -/
inductive Op where
  | list (sender : Nat) (ipfsHash : List Char) (storedKey : Nat) (nowTime : Nat)
  | purchase (sender : Nat) (imageId : Nat) (msgValue : Nat) (payoutOk : Bool)
  | grant (sender : Nat) (imageId : Nat) (account : Nat)
  deriving Repr

/-- EVM transaction semantics of one call: a revert leaves storage as it
was; a success commits the new state. -/
def exec (s : GalleryState) : Op → GalleryState
  | .list sender ipfsHash storedKey nowTime =>
    match listEncryptedImage s sender ipfsHash storedKey nowTime with
    | .ok (s', _) => s'
    | .error _ => s
  | .purchase sender imageId msgValue payoutOk =>
    match purchaseImage s sender imageId msgValue payoutOk with
    | .ok (s', _) => s'
    | .error _ => s
  | .grant sender imageId account =>
    match grantAccess s sender imageId account with
    | .ok s' => s'
    | .error _ => s

/-- A sequence of calls, applied in order. -/
def execList (s : GalleryState) (ops : List Op) : GalleryState :=
  ops.foldl exec s

/-- `msg.sender` of an external call is never the zero address. -/
def Op.senderNonzero : Op → Prop
  | .list sender _ _ _ => sender ≠ 0
  | .purchase sender _ _ _ => sender ≠ 0
  | .grant sender _ _ => sender ≠ 0

/-- Every slot outside `1..nextImageId` is still at the mapping default
(zero creator). Holds in every reachable state, with no assumption on
senders, because `listEncryptedImage` only ever writes slot
`nextImageId + 1`. -/
def OnlyListedExist (s : GalleryState) : Prop :=
  ∀ id, s.nextImageId < id ∨ id = 0 → (s.images id).creator = 0

/-- The storage invariant of reachable contract states: exactly the ids
`1..nextImageId` hold an item (nonzero creator, since `msg.sender` of the
listing call is never the zero address), everything outside that range is
at the mapping default. -/
structure Inv (s : GalleryState) : Prop where
  inRange : ∀ id, 1 ≤ id → id ≤ s.nextImageId → (s.images id).creator ≠ 0
  outRange : OnlyListedExist s

/-- `listEncryptedImage` succeeds exactly on a non-empty hash, regardless of
the state, so success of an `Op.list` is a function of the call alone. -/
def isSuccessfulList : Op → Bool
  | .list _ ipfsHash _ _ => ¬ ipfsHash.length = 0
  | _ => false

/-!
## The cipher: `src/app/src/utils/crypto.ts`

`encryptContent`/`decryptContent` delegate to the Web Crypto API's
AES-256-GCM (`crypto.subtle.encrypt`/`decrypt` with `{ name: 'AES-GCM', iv }`,
default 128-bit tag, no additional data). That primitive is embedded here in
full: AES-256 (FIPS 197) and GCM (NIST SP 800-38D). Bytes are `Nat` values
below 256 in lists; 128-bit blocks are big-endian `Nat`s where convenient.
The fresh random nonce that `encryptContent` draws is an explicit argument.
-/

/-- Big-endian bytes to a natural number. -/
def bytesToNat (l : List Nat) : Nat :=
  l.foldl (fun acc b => acc * 256 + b) 0

/-- The `len`-byte big-endian encoding of `v % 256 ^ len`. -/
def natToBytes : Nat → Nat → List Nat
  | 0, _ => []
  | n + 1, v => natToBytes n (v / 256) ++ [v % 256]

/-- `xtime`: multiplication by x in GF(2^8) mod x^8+x^4+x^3+x+1 (0x11B). -/
def xtime (a : Nat) : Nat :=
  let b := (a <<< 1) &&& 255
  if a &&& 128 = 0 then b else b ^^^ 27

/-- Russian-peasant product in GF(2^8), 8 bit-steps of fuel. -/
def gmulFuel : Nat → Nat → Nat → Nat
  | 0, _, _ => 0
  | n + 1, a, b =>
    (if b &&& 1 = 1 then a else 0) ^^^ gmulFuel n (xtime a) (b >>> 1)

/-- GF(2^8) multiplication. -/
def gmul (a b : Nat) : Nat := gmulFuel 8 a b

/-- GF(2^8) inverse as a^254 (maps 0 to 0), by an addition chain. -/
def ginv (a : Nat) : Nat :=
  let a2 := gmul a a
  let a4 := gmul a2 a2
  let a8 := gmul a4 a4
  let a16 := gmul a8 a8
  let a32 := gmul a16 a16
  let a64 := gmul a32 a32
  let a128 := gmul a64 a64
  gmul a2 (gmul a4 (gmul a8 (gmul a16 (gmul a32 (gmul a64 a128)))))

/-- Rotate an 8-bit value left by `n`. -/
def rotl8 (a n : Nat) : Nat := ((a <<< n) ||| (a >>> (8 - n))) &&& 255

/-- The AES S-box: affine transform of the GF(2^8) inverse (FIPS 197 §5.1.1). -/
def sbox (a : Nat) : Nat :=
  let s := ginv a
  s ^^^ rotl8 s 1 ^^^ rotl8 s 2 ^^^ rotl8 s 3 ^^^ rotl8 s 4 ^^^ 99

/-- Pack four bytes into a 32-bit word, big-endian. -/
def word (b0 b1 b2 b3 : Nat) : Nat :=
  (b0 <<< 24) ||| (b1 <<< 16) ||| (b2 <<< 8) ||| b3

/-- The four bytes of a 32-bit word, big-endian. -/
def wordBytes (w : Nat) : List Nat :=
  [(w >>> 24) &&& 255, (w >>> 16) &&& 255, (w >>> 8) &&& 255, w &&& 255]

/-- `SubWord`: the S-box applied to each byte of a word. -/
def subWord (w : Nat) : Nat :=
  word (sbox ((w >>> 24) &&& 255)) (sbox ((w >>> 16) &&& 255))
    (sbox ((w >>> 8) &&& 255)) (sbox (w &&& 255))

/-- `RotWord`: cyclic left rotation of a word by one byte. -/
def rotWord (w : Nat) : Nat := ((w <<< 8) ||| (w >>> 24)) &&& 4294967295

/-- Round constant `Rcon[j]` for AES-256 key expansion (j ranges over 1..7). -/
def rcon (j : Nat) : Nat := (2 ^ (j - 1)) <<< 24

/-- The first `Nk = 8` words of the expanded key, straight from the key bytes. -/
def initialWords (key : List Nat) : List Nat :=
  (List.range 8).map fun i =>
    word (key.getD (4 * i) 0) (key.getD (4 * i + 1) 0)
      (key.getD (4 * i + 2) 0) (key.getD (4 * i + 3) 0)

/-- One step of FIPS 197 §5.2 key expansion for Nk = 8: append word `i`. -/
def expandStep (ws : List Nat) : List Nat :=
  let i := ws.length
  let t := ws.getD (i - 1) 0
  let t :=
    if i % 8 = 0 then subWord (rotWord t) ^^^ rcon (i / 8)
    else if i % 8 = 4 then subWord t
    else t
  ws ++ [ws.getD (i - 8) 0 ^^^ t]

/-- All 60 words of the AES-256 key schedule. -/
def expandedWords (key : List Nat) : List Nat :=
  (List.range 52).foldl (fun ws _ => expandStep ws) (initialWords key)

/-- 16 bytes of round key `r` (words `4r..4r+3`). -/
def roundKeyBytes (ws : List Nat) (r : Nat) : List Nat :=
  wordBytes (ws.getD (4 * r) 0) ++ wordBytes (ws.getD (4 * r + 1) 0) ++
    wordBytes (ws.getD (4 * r + 2) 0) ++ wordBytes (ws.getD (4 * r + 3) 0)

/-- Pointwise xor of byte lists. -/
def xorBytes (a b : List Nat) : List Nat := a.zipWith HXor.hXor b

/-- `ShiftRows` on the flat 16-byte state, where state row r column c sits
at flat index `r + 4c`: output `[r,c]` is input `[r, (c+r) % 4]`. -/
def shiftRows (st : List Nat) : List Nat :=
  (List.range 16).map fun idx =>
    st.getD (idx % 4 + 4 * ((idx / 4 + idx % 4) % 4)) 0

/-- `MixColumns` on one column. -/
def mixColumn (a0 a1 a2 a3 : Nat) : List Nat :=
  [gmul 2 a0 ^^^ gmul 3 a1 ^^^ a2 ^^^ a3,
   a0 ^^^ gmul 2 a1 ^^^ gmul 3 a2 ^^^ a3,
   a0 ^^^ a1 ^^^ gmul 2 a2 ^^^ gmul 3 a3,
   gmul 3 a0 ^^^ a1 ^^^ a2 ^^^ gmul 2 a3]

/-- `MixColumns` on the flat 16-byte state. -/
def mixColumns (st : List Nat) : List Nat :=
  (List.range 4).flatMap fun c =>
    mixColumn (st.getD (4 * c) 0) (st.getD (4 * c + 1) 0)
      (st.getD (4 * c + 2) 0) (st.getD (4 * c + 3) 0)

/-- One middle AES round. -/
def aesRound (rk st : List Nat) : List Nat :=
  xorBytes (mixColumns (shiftRows (st.map sbox))) rk

/-- The final AES round (no `MixColumns`). -/
def aesFinalRound (rk st : List Nat) : List Nat :=
  xorBytes (shiftRows (st.map sbox)) rk

/-- AES-256 block encryption (FIPS 197 §5.1, Nr = 14). -/
def aesEncryptBlock (key block : List Nat) : List Nat :=
  let ws := expandedWords key
  let st0 := xorBytes block (roundKeyBytes ws 0)
  let stN := (List.range 13).foldl (fun st r => aesRound (roundKeyBytes ws (r + 1)) st) st0
  aesFinalRound (roundKeyBytes ws 14) stN

/-- The GCM reduction constant R = 11100001 || 0^120 (SP 800-38D §6.3). -/
def R128 : Nat := 225 <<< 120

/-- Bit-serial GF(2^128) product, processing `x` most-significant bit first. -/
def gmul128Fuel : Nat → Nat → Nat → Nat → Nat
  | 0, _, _, z => z
  | n + 1, x, v, z =>
    let z' := if x &&& 2 ^ 127 = 0 then z else z ^^^ v
    let v' := if v &&& 1 = 1 then (v >>> 1) ^^^ R128 else v >>> 1
    gmul128Fuel n ((x <<< 1) &&& (2 ^ 128 - 1)) v' z'

/-- GCM's GF(2^128) multiplication. -/
def gmul128 (x y : Nat) : Nat := gmul128Fuel 128 x y 0

/-- GHASH over ciphertext `c` with empty additional data: the zero-padded
16-byte blocks of `c` followed by the 128-bit length block `0^64 || 8|c|`. -/
def ghash (h : Nat) (c : List Nat) : Nat :=
  let n := (c.length + 15) / 16
  let y := (List.range n).foldl
    (fun y i =>
      let blk := (c.drop (16 * i)).take 16
      gmul128 (y ^^^ bytesToNat (blk ++ List.replicate (16 - blk.length) 0)) h)
    0
  gmul128 (y ^^^ 8 * c.length) h

/-- Counter block `iv || ctr` for a 12-byte IV (J0 is `counterBlock iv 1`). -/
def counterBlock (iv : List Nat) (ctr : Nat) : List Nat :=
  iv ++ natToBytes 4 ctr

/-- Byte `i` of the GCM-CTR keystream (counters start at 2). -/
def ksByte (key iv : List Nat) (i : Nat) : Nat :=
  (aesEncryptBlock key (counterBlock iv (2 + i / 16))).getD (i % 16) 0

/-- Xor a byte list against keystream bytes `ks i, ks (i+1), ...`. -/
def xorKs (ks : Nat → Nat) : Nat → List Nat → List Nat
  | _, [] => []
  | i, b :: rest => (b ^^^ ks i) :: xorKs ks (i + 1) rest

/-- The 16-byte GCM authentication tag over ciphertext `ct`:
`E(K, J0) xor GHASH_H(ct)` with `H = E(K, 0^128)`. -/
def gcmTag (key iv ct : List Nat) : List Nat :=
  natToBytes 16
    (bytesToNat (aesEncryptBlock key (counterBlock iv 1)) ^^^
      ghash (bytesToNat (aesEncryptBlock key (List.replicate 16 0))) ct)

/-- `crypto.subtle.encrypt({name: 'AES-GCM', iv}, key, plain)`: the
ciphertext with the 128-bit tag appended. -/
def aesGcmEncrypt (key iv pt : List Nat) : List Nat :=
  let ct := xorKs (ksByte key iv) 0 pt
  ct ++ gcmTag key iv ct

/-- Failures of `crypto.ts`: `malformedInput` is the explicit
`'Encrypted payload too short'` throw (the spec's MalformedInputError),
`invalidKey` the `'AES key must be 32 bytes'` throw in `importAesKey`, and
`integrityError` any `OperationError` out of `crypto.subtle.decrypt`
(the spec's IntegrityError: data shorter than the tag, or tag mismatch). -/
inductive CryptoError where
  | malformedInput
  | invalidKey
  | integrityError
  deriving Repr, DecidableEq

/-- `crypto.subtle.decrypt({name: 'AES-GCM', iv}, key, data)`: rejects data
shorter than the 128-bit tag, splits off the trailing tag, verifies it, and
only then returns the CTR-decrypted plaintext (never partial output). -/
def aesGcmDecrypt (key iv data : List Nat) : Except CryptoError (List Nat) :=
  if data.length < 16 then .error .integrityError
  else
    let ct := data.take (data.length - 16)
    let tag := data.drop (data.length - 16)
    if tag = gcmTag key iv ct then .ok (xorKs (ksByte key iv) 0 ct)
    else .error .integrityError

/-- `AES_IV_LENGTH` (`crypto.ts` line 1). -/
def AES_IV_LENGTH : Nat := 12

/-- `encryptContent(plain, keyHex)` (`crypto.ts` lines 29-38): `key` is the
byte form of `keyHex` (`hexToBytes`), checked to be 32 bytes by
`importAesKey`; `iv` is the fresh random nonce drawn by
`crypto.getRandomValues`; the payload is `iv || ciphertext || tag`. -/
def encryptContent (plain key iv : List Nat) : Except CryptoError (List Nat) :=
  if ¬ key.length = 32 then .error .invalidKey
  else .ok (iv ++ aesGcmEncrypt key iv plain)

/-- `decryptContent(payload, keyHex)` (`crypto.ts` lines 40-49): the length
guard `payload.length <= AES_IV_LENGTH` comes first, then the key import,
then AES-GCM decryption of everything after the first 12 bytes. -/
def decryptContent (payload key : List Nat) : Except CryptoError (List Nat) :=
  if payload.length ≤ AES_IV_LENGTH then .error .malformedInput
  else if ¬ key.length = 32 then .error .invalidKey
  else aesGcmDecrypt key (payload.take AES_IV_LENGTH) (payload.drop AES_IV_LENGTH)

/-!
## Key handling: `src/app/src/components/GalleryApp.tsx`

`handleEncrypt` (lines 103-113) draws a fresh ephemeral wallet
(`Wallet.createRandom()`, a random 32-byte private key), encrypts the image
with `encryptContent(buffer, wallet.privateKey)` - so the AES key bytes are
`hexToBytes(wallet.privateKey)`, the private key bytes themselves - and
seals `keyBigInt = BigInt(wallet.privateKey)`, the big-endian integer value
of those same bytes, on chain. `handleDecrypt` (lines 332-340) unseals the
integer, re-pads it to 64 hex digits (`keyBigInt.toString(16).padStart(64,
'0')`) and feeds the resulting 32 bytes to `decryptContent`.
-/

/-- The AES-256 key bytes `handleEncrypt` encrypts with, as a function of
the ephemeral wallet's 32 private-key bytes: `hexToBytes(wallet.privateKey)`,
i.e. the private-key bytes unchanged. -/
def handleEncryptAesKey (privKeyBytes : List Nat) : List Nat := privKeyBytes

/-- The value `handleEncrypt` seals on chain (`keyBigInt =
BigInt(wallet.privateKey)`): the big-endian integer of the same bytes. -/
def handleEncryptSealedSecret (privKeyBytes : List Nat) : Nat :=
  bytesToNat privKeyBytes

/-- The AES-256 key bytes `handleDecrypt` decrypts with, as a function of
the unsealed integer: `hexToBytes(keyBigInt.toString(16).padStart(64, '0'))`,
the 32-byte big-endian encoding of the secret. -/
def handleDecryptAesKey (secret : Nat) : List Nat := natToBytes 32 secret

/-! ## Byte-encoding lemmas -/

theorem natToBytes_length (n : Nat) : ∀ v, (natToBytes n v).length = n := by
  induction n with
  | zero => intro v; rfl
  | succ n ih => intro v; simp [natToBytes, ih]

theorem bytesToNat_append_singleton (l : List Nat) (b : Nat) :
    bytesToNat (l ++ [b]) = 256 * bytesToNat l + b := by
  simp [bytesToNat, List.foldl_append, Nat.mul_comm]

theorem natToBytes_bytesToNat (l : List Nat) :
    ∀ n, l.length = n → (∀ b ∈ l, b < 256) → natToBytes n (bytesToNat l) = l := by
  induction l using List.reverseRecOn with
  | nil =>
    intro n hn _
    subst hn
    rfl
  | append_singleton xs b ih =>
    intro n hn hb
    subst hn
    rw [List.length_append, List.length_singleton, bytesToNat_append_singleton,
      natToBytes]
    have hblt : b < 256 := hb b (by simp)
    have hdiv : (256 * bytesToNat xs + b) / 256 = bytesToNat xs := by
      omega
    have hmod : (256 * bytesToNat xs + b) % 256 = b := by
      omega
    rw [hdiv, hmod, ih xs.length rfl (fun x hx => hb x (by simp [hx]))]

/-! ## Keystream-xor lemmas -/

theorem xorKs_length (ks : Nat → Nat) (l : List Nat) :
    ∀ i, (xorKs ks i l).length = l.length := by
  induction l with
  | nil => intro i; rfl
  | cons b rest ih => intro i; simp [xorKs, ih]

theorem xorKs_xorKs (ks : Nat → Nat) (l : List Nat) :
    ∀ i, xorKs ks i (xorKs ks i l) = l := by
  induction l with
  | nil => intro i; rfl
  | cons b rest ih =>
    intro i
    simp [xorKs, ih, Nat.xor_assoc]

deriving instance DecidableEq for Except

/-! ## Round trip of the cipher -/

theorem aesGcmEncrypt_eq (key iv pt : List Nat) :
    aesGcmEncrypt key iv pt =
      xorKs (ksByte key iv) 0 pt ++ gcmTag key iv (xorKs (ksByte key iv) 0 pt) :=
  rfl

theorem aesGcmDecrypt_of_encrypt (key iv pt : List Nat) :
    aesGcmDecrypt key iv (aesGcmEncrypt key iv pt) = .ok pt := by
  have htag : (gcmTag key iv (xorKs (ksByte key iv) 0 pt)).length = 16 :=
    natToBytes_length _ _
  rw [aesGcmEncrypt_eq]
  unfold aesGcmDecrypt
  have hn : (xorKs (ksByte key iv) 0 pt).length =
      (xorKs (ksByte key iv) 0 pt ++
        gcmTag key iv (xorKs (ksByte key iv) 0 pt)).length - 16 := by
    simp [htag]
  rw [if_neg (by simp only [List.length_append, htag]; omega)]
  rw [List.take_left' hn, List.drop_left' hn]
  rw [if_pos rfl, xorKs_xorKs]

theorem aesGcmEncrypt_length (key iv pt : List Nat) :
    (aesGcmEncrypt key iv pt).length = pt.length + 16 := by
  simp [aesGcmEncrypt_eq, xorKs_length, gcmTag, natToBytes_length]

/-! ## Contract-step inversion lemmas -/

theorem listEncryptedImage_ok_inv {s s' : GalleryState} {sender k t rid : Nat}
    {ipfsHash : List Char}
    (h : listEncryptedImage s sender ipfsHash k t = .ok (s', rid)) :
    ¬ ipfsHash.length = 0 ∧ rid = s.nextImageId + 1 ∧
      s' = { nextImageId := s.nextImageId + 1
             images := fun i =>
               if i = s.nextImageId + 1 then
                 { creator := sender, ipfsHash := ipfsHash
                   encryptedKey := k, createdAt := t }
               else s.images i
             hasPurchasedMap := s.hasPurchasedMap
             keyAllowed := fun i a =>
               if i = s.nextImageId + 1 ∧ a = sender then true
               else s.keyAllowed i a
             contractAllowed := fun i =>
               if i = s.nextImageId + 1 then true else s.contractAllowed i } := by
  unfold listEncryptedImage at h
  split at h
  · simp at h
  · rename_i hne
    simp only [Except.ok.injEq, Prod.mk.injEq] at h
    obtain ⟨h1, h2⟩ := h
    subst h2
    subst h1
    exact ⟨hne, rfl, rfl⟩

theorem purchaseImage_ok_inv {s s' : GalleryState} {tr : Transfer}
    {sender id v : Nat} {payoutOk : Bool}
    (h : purchaseImage s sender id v payoutOk = .ok (s', tr)) :
    (s.images id).creator ≠ 0 ∧ ¬ sender = (s.images id).creator ∧
      s.hasPurchasedMap id sender = false ∧ v = ACCESS_PRICE ∧ payoutOk = true ∧
      tr = { recipient := (s.images id).creator, amount := v } ∧
      s' = { s with
             hasPurchasedMap := fun i a =>
               if i = id ∧ a = sender then true else s.hasPurchasedMap i a
             keyAllowed := fun i a =>
               if i = id ∧ a = sender then true else s.keyAllowed i a } := by
  unfold purchaseImage at h
  repeat' split at h
  all_goals simp_all

theorem grantAccess_ok_inv {s s' : GalleryState} {sender id acct : Nat}
    (h : grantAccess s sender id acct = .ok s') :
    ¬ acct = 0 ∧ (s.images id).creator ≠ 0 ∧ (s.images id).creator = sender ∧
      s' = { s with
             keyAllowed := fun i a =>
               if i = id ∧ a = acct then true else s.keyAllowed i a } := by
  unfold grantAccess at h
  repeat' split at h
  all_goals simp_all

/-! ## Transaction semantics lemmas -/

theorem exec_list_of_ok {s s' : GalleryState} {sender k t rid : Nat}
    {ipfsHash : List Char}
    (h : listEncryptedImage s sender ipfsHash k t = .ok (s', rid)) :
    exec s (.list sender ipfsHash k t) = s' := by
  simp [exec, h]

theorem exec_list_of_error {s : GalleryState} {sender k t : Nat}
    {ipfsHash : List Char} {e : GError}
    (h : listEncryptedImage s sender ipfsHash k t = .error e) :
    exec s (.list sender ipfsHash k t) = s := by
  simp [exec, h]

theorem exec_purchase_of_ok {s s' : GalleryState} {tr : Transfer}
    {sender id v : Nat} {payoutOk : Bool}
    (h : purchaseImage s sender id v payoutOk = .ok (s', tr)) :
    exec s (.purchase sender id v payoutOk) = s' := by
  simp [exec, h]

theorem exec_purchase_of_error {s : GalleryState} {sender id v : Nat}
    {payoutOk : Bool} {e : GError}
    (h : purchaseImage s sender id v payoutOk = .error e) :
    exec s (.purchase sender id v payoutOk) = s := by
  simp [exec, h]

theorem exec_grant_of_ok {s s' : GalleryState} {sender id acct : Nat}
    (h : grantAccess s sender id acct = .ok s') :
    exec s (.grant sender id acct) = s' := by
  simp [exec, h]

theorem exec_grant_of_error {s : GalleryState} {sender id acct : Nat}
    {e : GError} (h : grantAccess s sender id acct = .error e) :
    exec s (.grant sender id acct) = s := by
  simp [exec, h]

theorem execList_cons (s : GalleryState) (op : Op) (ops : List Op) :
    execList s (op :: ops) = execList (exec s op) ops :=
  rfl

/-- The item counter of one call: +1 on a successful listing, else unchanged. -/
theorem getTotalImages_exec (s : GalleryState) (op : Op) :
    getTotalImages (exec s op) =
      getTotalImages s + (if isSuccessfulList op then 1 else 0) := by
  cases op with
  | list sender ipfsHash k t =>
    by_cases hh : ipfsHash.length = 0
    · simp [exec, listEncryptedImage, hh, isSuccessfulList, getTotalImages]
    · simp [exec, listEncryptedImage, hh, isSuccessfulList, getTotalImages]
  | purchase sender id v payoutOk =>
    cases hp : purchaseImage s sender id v payoutOk with
    | error e => simp [exec_purchase_of_error hp, isSuccessfulList]
    | ok r =>
      obtain ⟨s', tr⟩ := r
      obtain ⟨-, -, -, -, -, -, h7⟩ := purchaseImage_ok_inv hp
      subst h7
      simp [exec_purchase_of_ok hp, isSuccessfulList, getTotalImages]
  | grant sender id acct =>
    cases hg : grantAccess s sender id acct with
    | error e => simp [exec_grant_of_error hg, isSuccessfulList]
    | ok s' =>
      obtain ⟨-, -, -, h4⟩ := grantAccess_ok_inv hg
      subst h4
      simp [exec_grant_of_ok hg, isSuccessfulList, getTotalImages]

/-- No call ever writes an image slot beyond the counter. -/
theorem onlyListedExist_exec (s : GalleryState) (op : Op)
    (hs : OnlyListedExist s) : OnlyListedExist (exec s op) := by
  cases op with
  | list sender ipfsHash k t =>
    cases hl : listEncryptedImage s sender ipfsHash k t with
    | error e => rw [exec_list_of_error hl]; exact hs
    | ok r =>
      obtain ⟨s', rid⟩ := r
      obtain ⟨-, -, hst⟩ := listEncryptedImage_ok_inv hl
      subst hst
      rw [exec_list_of_ok hl]
      intro id hid
      dsimp only at hid ⊢
      rw [if_neg (by omega)]
      exact hs id (by omega)
  | purchase sender id v payoutOk =>
    cases hp : purchaseImage s sender id v payoutOk with
    | error e => rw [exec_purchase_of_error hp]; exact hs
    | ok r =>
      obtain ⟨s', tr⟩ := r
      obtain ⟨-, -, -, -, -, -, h7⟩ := purchaseImage_ok_inv hp
      subst h7
      rw [exec_purchase_of_ok hp]
      exact hs
  | grant sender id acct =>
    cases hg : grantAccess s sender id acct with
    | error e => rw [exec_grant_of_error hg]; exact hs
    | ok s' =>
      obtain ⟨-, -, -, h4⟩ := grantAccess_ok_inv hg
      subst h4
      rw [exec_grant_of_ok hg]
      exact hs

theorem onlyListedExist_execList (ops : List Op) :
    ∀ s, OnlyListedExist s → OnlyListedExist (execList s ops) := by
  induction ops with
  | nil => intro s hs; exact hs
  | cons op rest ih =>
    intro s hs
    rw [execList_cons]
    exact ih _ (onlyListedExist_exec s op hs)

/-- A true `hasPurchased` answer survives any single further call. -/
theorem hasPurchased_true_exec (s : GalleryState) (op : Op) {id p : Nat}
    (hs : OnlyListedExist s) (h : hasPurchased s id p = .ok true) :
    hasPurchased (exec s op) id p = .ok true := by
  unfold hasPurchased at h
  split at h
  · simp at h
  · rename_i hc
    simp only [Except.ok.injEq, decide_eq_true_eq] at h
    cases op with
    | list sender ipfsHash k t =>
      cases hl : listEncryptedImage s sender ipfsHash k t with
      | error e =>
        rw [exec_list_of_error hl]
        unfold hasPurchased
        rw [if_neg hc]
        simp [h]
      | ok r =>
        obtain ⟨s', rid⟩ := r
        obtain ⟨-, -, hst⟩ := listEncryptedImage_ok_inv hl
        subst hst
        rw [exec_list_of_ok hl]
        have hle : id ≤ s.nextImageId ∧ id ≠ 0 := by
          by_contra hcon
          exact hc (hs id (by omega))
        unfold hasPurchased
        dsimp only
        rw [if_neg (show ¬ id = s.nextImageId + 1 by omega)]
        rw [if_neg hc]
        simp [h]
    | purchase sender pid v payoutOk =>
      cases hp : purchaseImage s sender pid v payoutOk with
      | error e =>
        rw [exec_purchase_of_error hp]
        unfold hasPurchased
        rw [if_neg hc]
        simp [h]
      | ok r =>
        obtain ⟨s', tr⟩ := r
        obtain ⟨-, -, -, -, -, -, h7⟩ := purchaseImage_ok_inv hp
        subst h7
        rw [exec_purchase_of_ok hp]
        unfold hasPurchased
        dsimp only
        rw [if_neg hc]
        rcases h with h | h
        · simp [h]
        · have : (if id = pid ∧ p = sender then true else s.hasPurchasedMap id p)
              = true := by
            split
            · rfl
            · exact h
          simp [this]
    | grant sender gid acct =>
      cases hg : grantAccess s sender gid acct with
      | error e =>
        rw [exec_grant_of_error hg]
        unfold hasPurchased
        rw [if_neg hc]
        simp [h]
      | ok s' =>
        obtain ⟨-, -, -, h4⟩ := grantAccess_ok_inv hg
        subst h4
        rw [exec_grant_of_ok hg]
        unfold hasPurchased
        dsimp only
        rw [if_neg hc]
        simp [h]

/-- Membership of a key's FHE ACL survives any single further call. -/
theorem keyAllowed_true_exec (s : GalleryState) (op : Op) {i a : Nat}
    (h : s.keyAllowed i a = true) : (exec s op).keyAllowed i a = true := by
  cases op with
  | list sender ipfsHash k t =>
    cases hl : listEncryptedImage s sender ipfsHash k t with
    | error e => rw [exec_list_of_error hl]; exact h
    | ok r =>
      obtain ⟨s', rid⟩ := r
      obtain ⟨-, -, hst⟩ := listEncryptedImage_ok_inv hl
      subst hst
      rw [exec_list_of_ok hl]
      dsimp only
      split
      · rfl
      · exact h
  | purchase sender pid v payoutOk =>
    cases hp : purchaseImage s sender pid v payoutOk with
    | error e => rw [exec_purchase_of_error hp]; exact h
    | ok r =>
      obtain ⟨s', tr⟩ := r
      obtain ⟨-, -, -, -, -, -, h7⟩ := purchaseImage_ok_inv hp
      subst h7
      rw [exec_purchase_of_ok hp]
      dsimp only
      split
      · rfl
      · exact h
  | grant sender gid acct =>
    cases hg : grantAccess s sender gid acct with
    | error e => rw [exec_grant_of_error hg]; exact h
    | ok s' =>
      obtain ⟨-, -, -, h4⟩ := grantAccess_ok_inv hg
      subst h4
      rw [exec_grant_of_ok hg]
      dsimp only
      split
      · rfl
      · exact h

/-! ## Reachable-state invariant -/

theorem inv_initState : Inv initState := by
  constructor
  · intro id h1 h2
    simp only [initState] at h2
    omega
  · intro id _
    rfl

theorem inv_exec (s : GalleryState) (op : Op) (hs : Inv s)
    (hop : op.senderNonzero) : Inv (exec s op) := by
  refine ⟨?_, onlyListedExist_exec s op hs.outRange⟩
  cases op with
  | list sender ipfsHash k t =>
    cases hl : listEncryptedImage s sender ipfsHash k t with
    | error e => rw [exec_list_of_error hl]; exact hs.inRange
    | ok r =>
      obtain ⟨s', rid⟩ := r
      obtain ⟨-, -, hst⟩ := listEncryptedImage_ok_inv hl
      subst hst
      rw [exec_list_of_ok hl]
      intro id h1 h2
      dsimp only at h2 ⊢
      by_cases hid : id = s.nextImageId + 1
      · rw [if_pos hid]
        exact hop
      · rw [if_neg hid]
        exact hs.inRange id h1 (by omega)
  | purchase sender pid v payoutOk =>
    cases hp : purchaseImage s sender pid v payoutOk with
    | error e => rw [exec_purchase_of_error hp]; exact hs.inRange
    | ok r =>
      obtain ⟨s', tr⟩ := r
      obtain ⟨-, -, -, -, -, -, h7⟩ := purchaseImage_ok_inv hp
      subst h7
      rw [exec_purchase_of_ok hp]
      exact hs.inRange
  | grant sender gid acct =>
    cases hg : grantAccess s sender gid acct with
    | error e => rw [exec_grant_of_error hg]; exact hs.inRange
    | ok s' =>
      obtain ⟨-, -, -, h4⟩ := grantAccess_ok_inv hg
      subst h4
      rw [exec_grant_of_ok hg]
      exact hs.inRange

/-! ## Concrete demonstration states -/

/-- Fresh contract after address 1 lists one image (hash "h", key 5). -/
def demoListed : GalleryState := exec initState (.list 1 ['h'] 5 0)

/-- `demoListed` after the creator grants account 2 access. -/
def demoGranted : GalleryState := exec demoListed (.grant 1 1 2)

/-- `demoListed` after account 2 purchases image 1 at the exact price. -/
def demoPurchased : GalleryState :=
  exec demoListed (.purchase 2 1 ACCESS_PRICE true)

/-- A call sequence touching image 1 and listing a second image. -/
def demoOps : List Op :=
  [.grant 1 1 2, .purchase 2 1 ACCESS_PRICE true, .list 3 ['x'] 9 1]

/-- A concrete ephemeral-wallet private key (32 bytes, value 42). -/
def demoPrivKey : List Nat := List.replicate 31 0 ++ [42]

theorem onlyListedExist_demoListed : OnlyListedExist demoListed := by
  intro id hid
  have h1 : demoListed.nextImageId = 1 := rfl
  rw [h1] at hid
  have h2 : demoListed.images id =
      if id = 1 then
        { creator := 1, ipfsHash := ['h'], encryptedKey := 5, createdAt := 0 }
      else emptyImage := rfl
  rw [h2, if_neg (by omega)]
  rfl

/-! ## The claims -/

/-- C1, counterexample: on a listed item the creator's `grantAccess(1, 2)`
succeeds and puts account 2 on the key's FHE ACL, yet the contract's
`hasPurchased(1, 2)` view still answers `false` - `grantAccess` never
touches `_hasPurchased`, so the claimed "isAuthorized returns true after
grantAccess" fails at this input. -/
theorem grant_not_in_hasPurchased_cex :
    (grantAccess demoListed 1 1 2).isOk = true ∧
    demoGranted.keyAllowed 1 2 = true ∧
    hasPurchased demoGranted 1 2 = .ok false := by
  refine ⟨rfl, rfl, by decide⟩

/-- C1 (amended): after the creator successfully calls `grantAccess`, the
principal is added to the item's FHE key ACL (and can therefore obtain the
key), but every `hasPurchased` answer is exactly what it was before the
call - the view reports only the creator and paying purchasers, and
`grantAccess` does not change it. -/
theorem grantAccess_key_acl_not_hasPurchased
    (s s' : GalleryState) (sender id acct : Nat)
    (h : grantAccess s sender id acct = .ok s') :
    s'.keyAllowed id acct = true ∧
    ∀ i q, hasPurchased s' i q = hasPurchased s i q := by
  obtain ⟨-, -, -, h4⟩ := grantAccess_ok_inv h
  subst h4
  refine ⟨?_, fun i q => rfl⟩
  dsimp only
  rw [if_pos ⟨rfl, rfl⟩]

/-- Witness for C1's amended theorem at the concrete one-item state. -/
theorem grantAccess_key_acl_not_hasPurchased_witness :
    demoGranted.keyAllowed 1 2 = true ∧
    ∀ i q, hasPurchased demoGranted i q = hasPurchased demoListed i q :=
  grantAccess_key_acl_not_hasPurchased demoListed demoGranted 1 1 2 rfl

/-- C2: for every plaintext, every 32-byte key and every 12-byte nonce,
`decryptContent` applied to the payload `encryptContent` produced under the
same key returns exactly the original plaintext bytes. -/
theorem decryptContent_encryptContent (pt key iv payload : List Nat)
    (hiv : iv.length = AES_IV_LENGTH)
    (henc : encryptContent pt key iv = .ok payload) :
    decryptContent payload key = .ok pt := by
  unfold encryptContent at henc
  by_cases hk : key.length = 32
  · rw [if_neg (not_not_intro hk)] at henc
    injection henc with hp
    subst hp
    unfold decryptContent
    rw [if_neg (by
      simp only [List.length_append, hiv, aesGcmEncrypt_length, AES_IV_LENGTH]
      omega)]
    rw [if_neg (not_not_intro hk)]
    rw [List.take_left' hiv, List.drop_left' hiv]
    exact aesGcmDecrypt_of_encrypt key iv pt
  · rw [if_pos hk] at henc
    simp at henc

/-- Witness for C2 on the plaintext `[1,2,3]`, key `7^32`, nonce `9^12`. -/
theorem decryptContent_encryptContent_witness :
    encryptContent [1, 2, 3] (List.replicate 32 7) (List.replicate 12 9) =
      .ok (List.replicate 12 9 ++
        aesGcmEncrypt (List.replicate 32 7) (List.replicate 12 9) [1, 2, 3]) ∧
    decryptContent
      (List.replicate 12 9 ++
        aesGcmEncrypt (List.replicate 32 7) (List.replicate 12 9) [1, 2, 3])
      (List.replicate 32 7) = .ok [1, 2, 3] :=
  ⟨rfl, decryptContent_encryptContent [1, 2, 3] (List.replicate 32 7)
    (List.replicate 12 9) _ rfl rfl⟩

/-- C3: after a successful `purchaseImage`, a second purchase of the same
image by the same buyer reverts with "Already purchased"
(AlreadyPurchasedError), whatever value it sends and whether or not its
payout would succeed, and the reverted call leaves the entire state - in
particular `_hasPurchased` and the key's ACL - exactly as it was. -/
theorem double_purchase_rejected (s s1 : GalleryState) (tr : Transfer)
    (sender id v v' : Nat) (ok1 ok2 : Bool)
    (h : purchaseImage s sender id v ok1 = .ok (s1, tr)) :
    purchaseImage s1 sender id v' ok2 = .error .alreadyPurchased ∧
    exec s1 (.purchase sender id v' ok2) = s1 := by
  obtain ⟨h1, h2, -, -, -, -, h7⟩ := purchaseImage_ok_inv h
  subst h7
  have hmain : purchaseImage
      { s with
        hasPurchasedMap := fun i a =>
          if i = id ∧ a = sender then true else s.hasPurchasedMap i a
        keyAllowed := fun i a =>
          if i = id ∧ a = sender then true else s.keyAllowed i a }
      sender id v' ok2 = .error .alreadyPurchased := by
    unfold purchaseImage
    dsimp only
    rw [if_neg h1, if_neg h2, if_pos (by rw [if_pos ⟨rfl, rfl⟩])]
  exact ⟨hmain, exec_purchase_of_error hmain⟩

/-- Witness for C3: account 2 buys image 1, then tries again. -/
theorem double_purchase_rejected_witness :
    purchaseImage demoPurchased 2 1 ACCESS_PRICE true =
      .error .alreadyPurchased ∧
    exec demoPurchased (.purchase 2 1 ACCESS_PRICE true) = demoPurchased :=
  double_purchase_rejected demoListed demoPurchased
    { recipient := 1, amount := ACCESS_PRICE } 2 1 ACCESS_PRICE ACCESS_PRICE
    true true rfl

/-- C4: `purchaseImage` is atomic with its payment: a successful call
forwards exactly `msg.value`, which the price check forces to be
`ACCESS_PRICE`, to the item's creator with nothing retained, and it can
only succeed when the payout call succeeds; if the payout fails the whole
transaction reverts and the state is unchanged, so permission granted
without settled payment is unreachable. -/
theorem purchase_atomic_payment (s : GalleryState) (sender id v : Nat)
    (payoutOk : Bool) :
    (∀ s' tr, purchaseImage s sender id v payoutOk = .ok (s', tr) →
      tr.recipient = (s.images id).creator ∧ tr.amount = v ∧
      v = ACCESS_PRICE ∧ payoutOk = true) ∧
    (payoutOk = false → exec s (.purchase sender id v payoutOk) = s) := by
  constructor
  · intro s' tr h
    obtain ⟨-, -, -, h4, h5, h6, -⟩ := purchaseImage_ok_inv h
    subst h6
    exact ⟨rfl, rfl, h4, h5⟩
  · intro hfalse
    subst hfalse
    cases hp : purchaseImage s sender id v false with
    | error e => exact exec_purchase_of_error hp
    | ok r =>
      obtain ⟨s', tr⟩ := r
      obtain ⟨-, -, -, -, h5, -, -⟩ := purchaseImage_ok_inv hp
      exact Bool.noConfusion h5

/-- Witness for C4: the successful demo purchase pays creator 1 exactly
`ACCESS_PRICE`; with a failing payout the same call leaves the state put. -/
theorem purchase_atomic_payment_witness :
    (({ recipient := 1, amount := ACCESS_PRICE } : Transfer).recipient =
        (demoListed.images 1).creator ∧
      ({ recipient := 1, amount := ACCESS_PRICE } : Transfer).amount =
        ACCESS_PRICE ∧
      ACCESS_PRICE = ACCESS_PRICE ∧ true = true) ∧
    exec demoListed (.purchase 2 1 ACCESS_PRICE false) = demoListed :=
  ⟨(purchase_atomic_payment demoListed 2 1 ACCESS_PRICE true).1 demoPurchased
      { recipient := 1, amount := ACCESS_PRICE } rfl,
    (purchase_atomic_payment demoListed 2 1 ACCESS_PRICE false).2 rfl⟩

/-- C5, counterexample: for the concrete wallet private key `demoPrivKey`
the AES key bytes used by `handleEncrypt` are not distinct from the sealed
secret: their big-endian integer value is exactly the sealed value, and
`handleDecrypt` maps the sealed value straight back to the key bytes - the
"one-way transform" is the identity, so key and secret are the same 256-bit
value and the secret is trivially recovered from the key. -/
theorem key_equals_secret_cex :
    bytesToNat (handleEncryptAesKey demoPrivKey) =
      handleEncryptSealedSecret demoPrivKey ∧
    handleDecryptAesKey (handleEncryptSealedSecret demoPrivKey) =
      demoPrivKey := by
  refine ⟨rfl, by decide⟩

/-- C5 (amended): the content-encryption key is derived from the sealed
per-item secret by the identity transform, not a one-way digest: the AES
key bytes `handleEncrypt` uses are exactly the 32-byte big-endian encoding
of the sealed integer, `handleDecrypt` reconstructs exactly those bytes
from the unsealed integer, and the sealed integer is recomputable from the
key. Derivation is deterministic, but key and secret are the same value. -/
theorem key_is_identity_of_secret (priv : List Nat)
    (hlen : priv.length = 32) (hb : ∀ b ∈ priv, b < 256) :
    handleEncryptAesKey priv =
      handleDecryptAesKey (handleEncryptSealedSecret priv) ∧
    bytesToNat (handleEncryptAesKey priv) = handleEncryptSealedSecret priv := by
  refine ⟨?_, rfl⟩
  unfold handleEncryptAesKey handleDecryptAesKey handleEncryptSealedSecret
  exact (natToBytes_bytesToNat priv 32 hlen hb).symm

/-- Witness for C5's amended theorem at the concrete private key. -/
theorem key_is_identity_of_secret_witness :
    handleEncryptAesKey demoPrivKey =
      handleDecryptAesKey (handleEncryptSealedSecret demoPrivKey) ∧
    bytesToNat (handleEncryptAesKey demoPrivKey) =
      handleEncryptSealedSecret demoPrivKey :=
  key_is_identity_of_secret demoPrivKey (by decide) (by decide)

/-- C6, counterexample: a 20-byte package is shorter than nonce (12) plus
tag (16), yet `decryptContent` does not fail with the
'Encrypted payload too short' MalformedInputError - it passes the length
guard (which only rejects lengths <= 12), hands 8 bytes to AES-GCM and
fails there with an IntegrityError-class OperationError. -/
theorem decrypt_short_package_cex :
    decryptContent (List.replicate 20 0) (List.replicate 32 0) =
      .error .integrityError ∧
    decryptContent (List.replicate 20 0) (List.replicate 32 0) ≠
      .error .malformedInput := by
  refine ⟨by decide, by decide⟩

/-- C6 (amended): `decryptContent` fails with MalformedInputError, before
any cryptographic processing, exactly for packages no longer than the
12-byte nonce; a package longer than 12 bytes but shorter than
nonce + 16-byte tag passes that guard and fails inside
`crypto.subtle.decrypt` with an IntegrityError instead. -/
theorem decrypt_length_guard (payload key : List Nat) :
    (payload.length ≤ AES_IV_LENGTH →
      decryptContent payload key = .error .malformedInput) ∧
    (AES_IV_LENGTH < payload.length → payload.length < AES_IV_LENGTH + 16 →
      key.length = 32 → decryptContent payload key = .error .integrityError) := by
  constructor
  · intro h
    unfold decryptContent
    rw [if_pos h]
  · intro h1 h2 hk
    unfold decryptContent
    rw [if_neg (by omega), if_neg (not_not_intro hk)]
    unfold aesGcmDecrypt
    rw [if_pos (by
      simp only [List.length_drop]
      simp only [AES_IV_LENGTH] at h1 h2 ⊢
      omega)]

/-- Witness for C6's amended theorem at 5-byte and 27-byte packages. -/
theorem decrypt_length_guard_witness :
    decryptContent (List.replicate 5 0) (List.replicate 32 0) =
      .error .malformedInput ∧
    decryptContent (List.replicate 27 0) (List.replicate 32 0) =
      .error .integrityError :=
  ⟨(decrypt_length_guard (List.replicate 5 0) (List.replicate 32 0)).1
      (by decide),
    (decrypt_length_guard (List.replicate 27 0) (List.replicate 32 0)).2
      (by decide) (by decide) (by decide)⟩

/-- C7, counterexample: after account 2 has already purchased image 1, an
under-paying repeat call reverts with "Already purchased", not with the
claimed "Incorrect price" - the double-purchase check precedes the price
check, so the claim fails for already-purchased principals. -/
theorem price_mismatch_order_cex :
    purchaseImage demoPurchased 2 1 (ACCESS_PRICE - 1) true =
      .error .alreadyPurchased ∧
    purchaseImage demoPurchased 2 1 (ACCESS_PRICE - 1) true ≠
      .error .incorrectPrice := by
  constructor
  · rfl
  · intro hcontra
    have hval : purchaseImage demoPurchased 2 1 (ACCESS_PRICE - 1) true =
        .error .alreadyPurchased := rfl
    rw [hval] at hcontra
    simp at hcontra

/-- C7 (amended): for an existing item and a principal other than the
creator who has not yet purchased it, any payment different from
`ACCESS_PRICE` - under-payment and over-payment alike - reverts with
"Incorrect price" (PriceMismatchError); a principal who has already
purchased is rejected earlier with AlreadyPurchasedError. -/
theorem price_mismatch_fresh_buyer (s : GalleryState) (sender id v : Nat)
    (payoutOk : Bool)
    (h1 : (s.images id).creator ≠ 0) (h2 : ¬ sender = (s.images id).creator)
    (h3 : s.hasPurchasedMap id sender = false) (h4 : ¬ v = ACCESS_PRICE) :
    purchaseImage s sender id v payoutOk = .error .incorrectPrice := by
  unfold purchaseImage
  rw [if_neg h1, if_neg h2, if_neg (by simp [h3]), if_pos h4]

/-- Witness for C7's amended theorem: both `price - 1` and `price + 1`. -/
theorem price_mismatch_fresh_buyer_witness :
    purchaseImage demoListed 2 1 (ACCESS_PRICE - 1) true =
      .error .incorrectPrice ∧
    purchaseImage demoListed 2 1 (ACCESS_PRICE + 1) true =
      .error .incorrectPrice :=
  ⟨price_mismatch_fresh_buyer demoListed 2 1 (ACCESS_PRICE - 1) true
      (by decide) (by decide) (by decide) (by decide),
    price_mismatch_fresh_buyer demoListed 2 1 (ACCESS_PRICE + 1) true
      (by decide) (by decide) (by decide) (by decide)⟩

/-- C8: authorization is monotonic. In any state whose image slots beyond
the counter are unwritten (true of every reachable state), once
`hasPurchased(id, p)` answers true it still answers true after any further
sequence of `listEncryptedImage`/`purchaseImage`/`grantAccess` calls, and
membership of any key's FHE ACL likewise survives every call: no operation
removes a permission. -/
theorem authorization_monotonic (s : GalleryState) (ops : List Op)
    (id p : Nat) (hs : OnlyListedExist s)
    (h : hasPurchased s id p = .ok true) :
    hasPurchased (execList s ops) id p = .ok true ∧
    (∀ i a, s.keyAllowed i a = true → (execList s ops).keyAllowed i a = true) := by
  induction ops generalizing s with
  | nil => exact ⟨h, fun i a ha => ha⟩
  | cons op rest ih =>
    rw [execList_cons]
    obtain ⟨c1, c2⟩ := ih (exec s op) (onlyListedExist_exec s op hs)
      (hasPurchased_true_exec s op hs h)
    exact ⟨c1, fun i a ha => c2 i a (keyAllowed_true_exec s op ha)⟩

/-- Witness for C8: the creator of the demo item stays authorized across a
grant, a purchase by account 2 and a listing by account 3. -/
theorem authorization_monotonic_witness :
    hasPurchased (execList demoListed demoOps) 1 1 = .ok true ∧
    (∀ i a, demoListed.keyAllowed i a = true →
      (execList demoListed demoOps).keyAllowed i a = true) :=
  authorization_monotonic demoListed demoOps 1 1
    onlyListedExist_demoListed (by decide)

/-- C9: listing with an empty handle reverts "Invalid hash"
(InvalidInputError) and changes nothing; a successful listing returns the
fresh id `count + 1`, strictly greater than every id in use (ids are never
reused), and immediately authorizes the creator; and over any call sequence
the counter `getTotalImages` grows by exactly the number of successful
listings - it never decreases. -/
theorem list_and_count_spec :
    (∀ s sender k t, listEncryptedImage s sender [] k t = .error .invalidHash ∧
      exec s (.list sender [] k t) = s) ∧
    (∀ s s' sender k t rid ipfsHash, Inv s → sender ≠ 0 →
      listEncryptedImage s sender ipfsHash k t = .ok (s', rid) →
      rid = getTotalImages s + 1 ∧
      (∀ id, (s.images id).creator ≠ 0 → id < rid) ∧
      hasPurchased s' rid sender = .ok true ∧
      getTotalImages s' = getTotalImages s + 1) ∧
    (∀ s ops, getTotalImages (execList s ops) =
      getTotalImages s + (ops.filter isSuccessfulList).length) := by
  refine ⟨fun s sender k t => ⟨rfl, exec_list_of_error rfl⟩, ?_, ?_⟩
  · intro s s' sender k t rid ipfsHash hInv hsender h
    obtain ⟨hne, hrid, hst⟩ := listEncryptedImage_ok_inv h
    subst hst
    subst hrid
    refine ⟨rfl, ?_, ?_, rfl⟩
    · intro id hcreator
      by_contra hcon
      exact hcreator (hInv.outRange id (by omega))
    · unfold hasPurchased
      dsimp only
      rw [if_pos rfl]
      rw [if_neg hsender]
      simp
  · intro s ops
    induction ops generalizing s with
    | nil => rfl
    | cons op rest ih =>
      rw [execList_cons, ih (exec s op), getTotalImages_exec]
      by_cases hop : isSuccessfulList op = true
      · simp only [List.filter_cons, hop, if_pos, List.length_cons]
        omega
      · simp only [List.filter_cons, Bool.not_eq_true] at hop ⊢
        rw [hop]
        simp

/-- Witness for C9 at concrete calls on the fresh contract. -/
theorem list_and_count_spec_witness :
    (listEncryptedImage initState 1 [] 5 0 = .error .invalidHash ∧
      exec initState (.list 1 [] 5 0) = initState) ∧
    (1 = getTotalImages initState + 1 ∧
      (∀ id, (initState.images id).creator ≠ 0 → id < 1) ∧
      hasPurchased demoListed 1 1 = .ok true ∧
      getTotalImages demoListed = getTotalImages initState + 1) ∧
    getTotalImages (execList initState demoOps) =
      getTotalImages initState + (demoOps.filter isSuccessfulList).length :=
  ⟨list_and_count_spec.1 initState 1 5 0,
    list_and_count_spec.2.1 initState demoListed 1 5 0 1 ['h'] inv_initState
      (by decide) rfl,
    list_and_count_spec.2.2 initState demoOps⟩

/-- C10: under the reachable-state invariant, an item exists (nonzero
creator, the contract's definitive existence test) exactly when
`1 <= id <= getTotalImages`, and for every id outside that range - id 0
and every id beyond the counter - `getImage`, `hasPurchased` and
`purchaseImage` all revert with "Image missing" (NotFoundError). -/
theorem existence_range_spec (s : GalleryState) (hInv : Inv s) :
    (∀ id, (s.images id).creator ≠ 0 ↔ (1 ≤ id ∧ id ≤ getTotalImages s)) ∧
    (∀ id sender v payoutOk p, id = 0 ∨ getTotalImages s < id →
      getImage s id = .error .notFound ∧
      hasPurchased s id p = .error .notFound ∧
      purchaseImage s sender id v payoutOk = .error .notFound) := by
  simp only [getTotalImages]
  constructor
  · intro id
    constructor
    · intro hc
      by_contra hcon
      exact hc (hInv.outRange id (by omega))
    · intro hrange
      exact hInv.inRange id hrange.1 hrange.2
  · intro id sender v payoutOk p hid
    have hc : (s.images id).creator = 0 := hInv.outRange id (by omega)
    refine ⟨?_, ?_, ?_⟩
    · unfold getImage
      rw [if_pos hc]
    · unfold hasPurchased
      rw [if_pos hc]
    · unfold purchaseImage
      rw [if_pos hc]

/-- Witness for C10 on the one-item demo state: id 1 exists, ids 0 and 2
are out of range and all three entry points report "Image missing". -/
theorem existence_range_spec_witness :
    ((demoListed.images 1).creator ≠ 0 ↔
      (1 ≤ 1 ∧ 1 ≤ getTotalImages demoListed)) ∧
    (getImage demoListed 2 = .error .notFound ∧
      hasPurchased demoListed 2 3 = .error .notFound ∧
      purchaseImage demoListed 9 2 0 true = .error .notFound) ∧
    (getImage demoListed 0 = .error .notFound ∧
      hasPurchased demoListed 0 3 = .error .notFound ∧
      purchaseImage demoListed 9 0 0 true = .error .notFound) := by
  have hInv : Inv demoListed :=
    inv_exec initState (.list 1 ['h'] 5 0) inv_initState Nat.one_ne_zero
  exact ⟨(existence_range_spec demoListed hInv).1 1,
    (existence_range_spec demoListed hInv).2 2 9 0 true 3 (by decide),
    (existence_range_spec demoListed hInv).2 0 9 0 true 3 (by decide)⟩

end SecretPicture
